import Mathlib

/-!
# Verification of the codebase indexer (`indexer.py`)

A shallow embedding of `CodebaseIndexer`: the component data model, the
Python/SQL extractors, the lookup-table build pass, the search scoring and
ranking, and the snapshot save/load round trip.  Strings are modelled as
`List Char` (Python `str`), and Python dictionaries as association lists with
insert-or-update semantics (update keeps the key's position, a new key is
appended), which matches CPython's insertion-ordered dicts.
-/

/-- Python strings, modelled as lists of characters. -/
abbrev Str := List Char

/-- `str.lower()` (per-character lowering; the ASCII fragment the code uses). -/
def lowerStr (s : Str) : Str := s.map Char.toLower

/-- Is the first string a prefix of the second? -/
def strPrefix : Str → Str → Bool
  | [], _ => true
  | _ :: _, [] => false
  | c :: cs, d :: ds => c = d && strPrefix cs ds

/-- Python's `needle in hay` on strings: contiguous-substring test. -/
def strIn : Str → Str → Bool
  | n, [] => strPrefix n []
  | n, h :: t => strPrefix n (h :: t) || strIn n t

/-- A value stored in a component's open `metadata` mapping: the code only ever
stores strings (`language`, `content`, `title`, `route_path`), integers
(`size`), and lists of strings (`bases`). -/
inductive MetaVal where
  | s (v : Str)
  | n (v : Int)
  | ls (v : List Str)
deriving DecidableEq, Repr

/-- Association-list lookup (first binding wins; builders keep keys unique). -/
def alookup {α : Type} : List (Str × α) → Str → Option α
  | [], _ => none
  | (k', v) :: rest, k => if k' = k then some v else alookup rest k

/-- Python `dict[k] = v`: update the existing binding in place, else append. -/
def pyInsert {α : Type} : List (Str × α) → Str → α → List (Str × α)
  | [], k, v => [(k, v)]
  | (k', v') :: rest, k, v =>
    if k' = k then (k', v) :: rest else (k', v') :: pyInsert rest k v

/-- `CodeComponent` (the dataclass in `indexer.py`): one searchable component. -/
structure CodeComponent where
  type : Str
  name : Str
  filepath : Str
  line_start : Nat
  line_end : Nat
  docstring : Str := []
  signature : Str := []
  decorators : List Str := []
  parent_class : Str := []
  imports : List Str := []
  metadata : List (Str × MetaVal) := []
deriving DecidableEq, Repr

/-- `metadata.get(key)` (returns `none` when the key is absent). -/
def metaGet (c : CodeComponent) (k : Str) : Option MetaVal := alookup c.metadata k

/-- `metadata.get(key, '')` restricted to string values, as used by `search`
for `title` and `content` (those keys only ever hold strings). -/
def metaGetStr (c : CodeComponent) (k : Str) : Str :=
  match metaGet c k with
  | some (.s v) => v
  | _ => []

/-- `metadata.get('language') == tag` (an absent key compares unequal). -/
def metaLangIs (c : CodeComponent) (tag : Str) : Bool :=
  match metaGet c ("language".toList) with
  | some (.s v) => v = tag
  | _ => false

/-! ## Search scoring (`CodebaseIndexer.search`, the per-component score) -/

/-- The score the `search` loop assigns to one component: `score = 0`, then an
`if/elif` chain of `score += k` branches, exactly as in the source.  The
`comp.metadata and` guards are Python truthiness tests (non-empty dict). -/
def searchScore (query : Str) (c : CodeComponent) : Nat :=
  let ql := lowerStr query
  let score : Nat := 0
  let score :=
    if ql = lowerStr c.name then score + 100
    else if strIn ql (lowerStr c.name) then score + 50
    else if strIn ql (lowerStr c.docstring) then score + 20
    else if strIn ql (lowerStr c.filepath) then score + 10
    else if c.metadata.isEmpty then score
    else if metaLangIs c ("markdown".toList) then
      if strIn ql (lowerStr (metaGetStr c ("title".toList))) then score + 30
      else if strIn ql (lowerStr (metaGetStr c ("content".toList))) then score + 15
      else score
    else if metaLangIs c ("sql".toList) then
      if strIn ql (lowerStr (metaGetStr c ("content".toList))) then score + 15
      else score
    else score
  score

/-- The scoring precedence exactly as the specification words it: a single
ordered rule list, first matching rule wins, never additive.  Written from the
spec's words, to be compared with `searchScore` (written from the source). -/
def scoreSpec (query : Str) (c : CodeComponent) : Nat :=
  let ql := lowerStr query
  if ql = lowerStr c.name then 100
  else if strIn ql (lowerStr c.name) then 50
  else if strIn ql (lowerStr c.docstring) then 20
  else if strIn ql (lowerStr c.filepath) then 10
  else if metaLangIs c ("markdown".toList) then
    if strIn ql (lowerStr (metaGetStr c ("title".toList))) then 30
    else if strIn ql (lowerStr (metaGetStr c ("content".toList))) then 15
    else 0
  else if metaLangIs c ("sql".toList) then
    if strIn ql (lowerStr (metaGetStr c ("content".toList))) then 15
    else 0
  else 0

theorem metaLangIs_nil {c : CodeComponent} (h : c.metadata = []) (tag : Str) :
    metaLangIs c tag = false := by
  simp [metaLangIs, metaGet, h, alookup]

/-- The two scoring definitions agree on every query and component. -/
theorem searchScore_eq_scoreSpec (query : Str) (c : CodeComponent) :
    searchScore query c = scoreSpec query c := by
  unfold searchScore scoreSpec
  by_cases hm : c.metadata = []
  · simp only [hm, List.isEmpty_nil, metaLangIs_nil hm, if_true,
      Bool.false_eq_true, if_false]
  · rw [show c.metadata.isEmpty = false by
      cases h : c.metadata <;> simp_all [List.isEmpty]]
    simp only [Bool.false_eq_true, if_false]

theorem strPrefix_self : ∀ s : Str, strPrefix s s = true
  | [] => rfl
  | c :: cs => by simp [strPrefix, strPrefix_self cs]

theorem strIn_self (s : Str) : strIn s s = true := by
  cases s with
  | nil => rfl
  | cons h t => simp [strIn, strPrefix_self]

/-- C1: per component and query, `search` assigns at most one score, by the
first matching rule of the spec's precedence list (100 exact name, 50 name
substring, 20 summary, 10 path, then 30/15 for documentation title/content,
15 for schema content), never adding rules; in particular an exact-name match
outscores a name-substring match, which outscores a summary-substring match. -/
theorem search_scoring_precedence :
    (∀ query c, searchScore query c = scoreSpec query c) ∧
    (∀ query a b, lowerStr query = lowerStr a.name →
      strIn (lowerStr query) (lowerStr b.name) = true →
      lowerStr query ≠ lowerStr b.name →
      searchScore query b < searchScore query a) ∧
    (∀ query b d, strIn (lowerStr query) (lowerStr b.name) = true →
      lowerStr query ≠ lowerStr b.name →
      strIn (lowerStr query) (lowerStr d.name) = false →
      strIn (lowerStr query) (lowerStr d.docstring) = true →
      searchScore query d < searchScore query b) := by
  have hscore50 : ∀ query b, strIn (lowerStr query) (lowerStr b.name) = true →
      lowerStr query ≠ lowerStr b.name → searchScore query b = 50 := by
    intro query b h2 h3
    simp only [searchScore]
    rw [if_neg h3, if_pos h2]
  refine ⟨searchScore_eq_scoreSpec, ?_, ?_⟩
  · intro query a b h1 h2 h3
    have ha : searchScore query a = 100 := by
      simp only [searchScore]
      rw [if_pos h1]
    rw [ha, hscore50 query b h2 h3]
    omega
  · intro query b d hb1 hb2 hd1 hd2
    have hdn : lowerStr query ≠ lowerStr d.name := by
      intro h
      rw [h, strIn_self] at hd1
      simp at hd1
    have hd : searchScore query d = 20 := by
      simp only [searchScore]
      rw [if_neg hdn, if_neg (by simp [hd1]), if_pos hd2]
    rw [hd, hscore50 query b hb1 hb2]
    omega

def scoringWitnessExact : CodeComponent :=
  { type := "function".toList, name := "foo".toList, filepath := "a.py".toList,
    line_start := 1, line_end := 2 }

def scoringWitnessNameSub : CodeComponent :=
  { type := "function".toList, name := "foobar".toList,
    filepath := "a.py".toList, line_start := 1, line_end := 2 }

def scoringWitnessSummary : CodeComponent :=
  { type := "function".toList, name := "baz".toList,
    filepath := "a.py".toList, line_start := 1, line_end := 2,
    docstring := "the foo helper".toList }

theorem search_scoring_precedence_witness :
    searchScore ("foo".toList) scoringWitnessNameSub <
      searchScore ("foo".toList) scoringWitnessExact ∧
    searchScore ("foo".toList) scoringWitnessSummary <
      searchScore ("foo".toList) scoringWitnessNameSub :=
  ⟨search_scoring_precedence.2.1 ("foo".toList) scoringWitnessExact
      scoringWitnessNameSub (by decide) (by decide) (by decide),
   search_scoring_precedence.2.2 ("foo".toList) scoringWitnessNameSub
      scoringWitnessSummary (by decide) (by decide) (by decide) (by decide)⟩

/-! ## Search ranking (`CodebaseIndexer.search`) -/

/-- `if component_type and comp.type != component_type: continue` — the kind
filter is guarded by a Python truthiness test, so `None` and the empty string
both mean "no filter". -/
def typePasses (componentType : Option Str) (c : CodeComponent) : Bool :=
  match componentType with
  | none => true
  | some t => if t = [] then true else c.type = t

/-- The loop body of `search`: skip filtered-out kinds, score, keep scores
above zero together with their component, in component order. -/
def searchResults (comps : List CodeComponent) (query : Str)
    (componentType : Option Str) : List (CodeComponent × Nat) :=
  comps.filterMap (fun c =>
    if typePasses componentType c then
      if searchScore query c > 0 then some (c, searchScore query c) else none
    else none)

/-- Insert into a score-descending list: walk past strictly greater scores,
stop before equal ones — the insertion step of a stable descending sort. -/
def insertDesc (x : CodeComponent × Nat) :
    List (CodeComponent × Nat) → List (CodeComponent × Nat)
  | [] => [x]
  | y :: ys => if x.2 < y.2 then y :: insertDesc x ys else x :: y :: ys

/-- `results.sort(key=lambda r: r['score'], reverse=True)`: Python's sort is
stable, and every stable descending-by-score sort computes the same list, so
it is embedded as stable insertion sort. -/
def pySortDesc : List (CodeComponent × Nat) → List (CodeComponent × Nat)
  | [] => []
  | x :: xs => insertDesc x (pySortDesc xs)

/-- `CodebaseIndexer.search`: filter and score every component, stable-sort by
score descending, then truncate (`results[:limit]`; the limit is modelled as a
natural number, i.e. a result cap). -/
def search (comps : List CodeComponent) (query : Str)
    (componentType : Option Str) (limit : Nat) : List (CodeComponent × Nat) :=
  (pySortDesc (searchResults comps query componentType)).take limit

theorem mem_searchResults {comps : List CodeComponent} {query : Str}
    {ft : Option Str} {p : CodeComponent × Nat}
    (h : p ∈ searchResults comps query ft) :
    p.1 ∈ comps ∧ typePasses ft p.1 = true ∧ p.2 = searchScore query p.1 ∧
      0 < p.2 := by
  unfold searchResults at h
  rcases List.mem_filterMap.mp h with ⟨c, hc, hf⟩
  by_cases ht : typePasses ft c = true
  · rw [if_pos ht] at hf
    by_cases hs : searchScore query c > 0
    · rw [if_pos hs] at hf
      cases hf
      exact ⟨hc, ht, rfl, hs⟩
    · rw [if_neg hs] at hf
      cases hf
  · rw [if_neg ht] at hf
    cases hf

theorem searchResults_sublist (comps : List CodeComponent) (query : Str)
    (ft : Option Str) :
    List.Sublist (searchResults comps query ft)
      (comps.map (fun c => (c, searchScore query c))) := by
  induction comps with
  | nil => simp [searchResults]
  | cons c cs ih =>
    unfold searchResults at ih ⊢
    simp only [List.filterMap_cons, List.map_cons]
    by_cases ht : typePasses ft c = true
    · rw [if_pos ht]
      by_cases hs : searchScore query c > 0
      · rw [if_pos hs]
        exact List.Sublist.cons₂ _ ih
      · rw [if_neg hs]
        exact List.Sublist.cons _ ih
    · rw [if_neg ht]
      exact List.Sublist.cons _ ih

theorem mem_insertDesc {x a : CodeComponent × Nat}
    {l : List (CodeComponent × Nat)} :
    a ∈ insertDesc x l ↔ a = x ∨ a ∈ l := by
  induction l with
  | nil => simp [insertDesc]
  | cons y ys ih =>
    unfold insertDesc
    by_cases hxy : x.2 < y.2
    · rw [if_pos hxy]
      simp only [List.mem_cons, ih]
      tauto
    · rw [if_neg hxy]
      simp only [List.mem_cons]

theorem mem_pySortDesc {a : CodeComponent × Nat}
    {l : List (CodeComponent × Nat)} :
    a ∈ pySortDesc l ↔ a ∈ l := by
  induction l with
  | nil => simp [pySortDesc]
  | cons y ys ih =>
    unfold pySortDesc
    rw [mem_insertDesc, ih, List.mem_cons]

theorem pairwise_insertDesc {x : CodeComponent × Nat}
    {l : List (CodeComponent × Nat)}
    (h : l.Pairwise (fun a b => b.2 ≤ a.2)) :
    (insertDesc x l).Pairwise (fun a b => b.2 ≤ a.2) := by
  induction l with
  | nil => simp [insertDesc]
  | cons y ys ih =>
    unfold insertDesc
    rcases List.pairwise_cons.mp h with ⟨hy, hys⟩
    by_cases hxy : x.2 < y.2
    · rw [if_pos hxy]
      refine List.pairwise_cons.mpr ⟨?_, ih hys⟩
      intro a ha
      rcases mem_insertDesc.mp ha with rfl | ha
      · exact Nat.le_of_lt hxy
      · exact hy a ha
    · rw [if_neg hxy]
      refine List.pairwise_cons.mpr ⟨?_, h⟩
      intro a ha
      rcases List.mem_cons.mp ha with rfl | ha
      · exact Nat.le_of_not_lt hxy
      · exact le_trans (hy a ha) (Nat.le_of_not_lt hxy)

theorem pairwise_pySortDesc (l : List (CodeComponent × Nat)) :
    (pySortDesc l).Pairwise (fun a b => b.2 ≤ a.2) := by
  induction l with
  | nil => simp [pySortDesc]
  | cons y ys ih => exact pairwise_insertDesc ih

theorem filter_insertDesc (x : CodeComponent × Nat)
    (l : List (CodeComponent × Nat)) (s : Nat) :
    (insertDesc x l).filter (fun p => p.2 == s) =
      if x.2 = s then x :: l.filter (fun p => p.2 == s)
      else l.filter (fun p => p.2 == s) := by
  induction l with
  | nil =>
    by_cases hx : x.2 = s <;> simp [insertDesc, List.filter_cons, hx]
  | cons y ys ih =>
    unfold insertDesc
    by_cases hxy : x.2 < y.2
    · rw [if_pos hxy]
      by_cases hx : x.2 = s
      · have hy : ¬ (y.2 = s) := by omega
        simp [List.filter_cons, ih, hx, hy]
      · simp [List.filter_cons, ih, hx]
    · rw [if_neg hxy]
      by_cases hx : x.2 = s
      · simp [List.filter_cons, hx]
      · simp [List.filter_cons, hx]

theorem filter_pySortDesc (l : List (CodeComponent × Nat)) (s : Nat) :
    (pySortDesc l).filter (fun p => p.2 == s) =
      l.filter (fun p => p.2 == s) := by
  induction l with
  | nil => rfl
  | cons y ys ih =>
    unfold pySortDesc
    rw [filter_insertDesc]
    by_cases hy : y.2 = s
    · simp [ih, hy]
    · simp [ih, hy, List.filter_cons]

def emptyFilterComp : CodeComponent :=
  { type := "function".toList, name := "f".toList, filepath := "a.py".toList,
    line_start := 1, line_end := 1 }

/-- C2 counterexample: with the kind filter given as the empty string, the
truthiness guard `if component_type and ...` disables filtering, so a
`function`-kind component is returned even though its kind differs from the
given filter. -/
theorem search_kind_filter_empty_string_counterexample :
    search [emptyFilterComp] ("f".toList) (some []) 20 =
      [(emptyFilterComp, 100)] ∧
    emptyFilterComp.type ≠ ([] : Str) := by
  constructor
  · rfl
  · decide

/-- C2 (amended): `search` returns only components from the sequence with
their nonzero score; the kind filter excludes other kinds whenever it is a
non-empty string (`None` and `""` are both treated as "no filter" by the
code's truthiness test); the result is the truncation-to-`limit` of the full
stable score-descending sort of the scored list, so it is sorted descending,
ties keep original component order, and its length is at most `limit`. -/
theorem search_filters_sorts_truncates (comps : List CodeComponent)
    (query : Str) (componentType : Option Str) (limit : Nat) :
    (∀ p ∈ search comps query componentType limit,
      p.1 ∈ comps ∧ p.2 = searchScore query p.1 ∧ 0 < p.2 ∧
      (∀ t, componentType = some t → t ≠ [] → p.1.type = t)) ∧
    (search comps query componentType limit).length ≤ limit ∧
    search comps query componentType limit =
      (pySortDesc (searchResults comps query componentType)).take limit ∧
    (pySortDesc (searchResults comps query componentType)).Pairwise
      (fun a b => b.2 ≤ a.2) ∧
    (∀ s, (pySortDesc (searchResults comps query componentType)).filter
        (fun p => p.2 == s) =
      (searchResults comps query componentType).filter (fun p => p.2 == s)) ∧
    List.Sublist (searchResults comps query componentType)
      (comps.map (fun c => (c, searchScore query c))) := by
  refine ⟨?_, ?_, rfl, pairwise_pySortDesc _, filter_pySortDesc _,
    searchResults_sublist comps query componentType⟩
  · intro p hp
    have hp' : p ∈ pySortDesc (searchResults comps query componentType) :=
      List.mem_of_mem_take hp
    have hm := mem_searchResults (mem_pySortDesc.mp hp')
    refine ⟨hm.1, hm.2.2.1, hm.2.2.2, ?_⟩
    intro t ht hne
    have := hm.2.1
    rw [ht] at this
    simp only [typePasses] at this
    rw [if_neg hne] at this
    exact of_decide_eq_true this
  · exact List.length_take_le _ _

theorem search_filters_sorts_truncates_witness :
    (emptyFilterComp, 100) ∈
      search [emptyFilterComp] ("f".toList) (some ("function".toList)) 5 ∧
    emptyFilterComp.type = "function".toList ∧
    (search [emptyFilterComp] ("f".toList)
      (some ("function".toList)) 5).length ≤ 5 := by
  have h := search_filters_sorts_truncates [emptyFilterComp] ("f".toList)
    (some ("function".toList)) 5
  have hmem : (emptyFilterComp, 100) ∈
      search [emptyFilterComp] ("f".toList) (some ("function".toList)) 5 := by
    decide
  exact ⟨hmem, (h.1 _ hmem).2.2.2 _ rfl (by decide), h.2.1⟩

/-! ## Lookup tables (`CodebaseIndexer._build_lookup_tables`) -/

/-- `self.functions[name].append(comp)`, creating the binding on first use
(a new key is appended at the end of the dict). -/
def appendAt : List (Str × List CodeComponent) → Str → CodeComponent →
    List (Str × List CodeComponent)
  | [], k, v => [(k, [v])]
  | (k', l) :: rest, k, v =>
    if k' = k then (k', l ++ [v]) :: rest else (k', l) :: appendAt rest k v

/-- The five derived lookup dictionaries held by the indexer. -/
structure Tables where
  routes : List (Str × CodeComponent) := []
  models : List (Str × CodeComponent) := []
  tables : List (Str × CodeComponent) := []
  functions : List (Str × List CodeComponent) := []
  classes : List (Str × CodeComponent) := []
deriving DecidableEq, Repr

/-- `comp.metadata.get('route_path', comp.name)`: the key of a route
component.  Extraction only ever stores a (non-empty) string under
`route_path`, so the string case is the only reachable one. -/
def routeKey (c : CodeComponent) : Str :=
  match metaGet c ("route_path".toList) with
  | some (.s s) => s
  | _ => c.name

/-- `any('Model' in base for base in comp.metadata.get('bases', []))` —
the case-sensitive model-marker test over the stored base-type names. -/
def hasModelBase (c : CodeComponent) : Bool :=
  (match metaGet c ("bases".toList) with
   | some (.ls l) => l
   | _ => []).any (fun b => strIn ("Model".toList) b)

/-- One iteration of the `_build_lookup_tables` loop: returns the updated
dictionaries and the (possibly model-reclassified) component.  The loop body
stores the component and then mutates `comp.type = 'model'`; since the stored
reference is the same object, the dictionary holds the reclassified value. -/
def buildStep (t : Tables) (c : CodeComponent) : Tables × CodeComponent :=
  if c.type = "route".toList then
    ({ t with routes := pyInsert t.routes (routeKey c) c }, c)
  else if c.type = "model".toList ∨
      (c.type = "class".toList ∧ hasModelBase c = true) then
    ({ t with models :=
        pyInsert t.models c.name { c with type := "model".toList } },
      { c with type := "model".toList })
  else if c.type = "table".toList then
    ({ t with tables := pyInsert t.tables c.name c }, c)
  else if c.type = "function".toList then
    ({ t with functions := appendAt t.functions c.name c }, c)
  else if c.type = "class".toList then
    ({ t with classes := pyInsert t.classes c.name c }, c)
  else (t, c)

/-- `_build_lookup_tables`: fold the loop body over the component sequence,
returning the filled dictionaries and the in-place-updated sequence. -/
def buildLookupTables (t : Tables) :
    List CodeComponent → Tables × List CodeComponent
  | [] => (t, [])
  | c :: cs =>
    let s := buildStep t c
    let r := buildLookupTables s.1 cs
    (r.1, s.2 :: r.2)

/-- The in-place `comp.type` update the build pass applies to one component. -/
def reclassify (c : CodeComponent) : CodeComponent :=
  if c.type = "model".toList ∨
      (c.type = "class".toList ∧ hasModelBase c = true) then
    { c with type := "model".toList }
  else c

theorem buildStep_snd (t : Tables) (c : CodeComponent) :
    (buildStep t c).2 = reclassify c := by
  unfold buildStep reclassify
  by_cases h1 : c.type = "route".toList
  · rw [if_pos h1]
    rw [if_neg (by simp [h1])]
  · rw [if_neg h1]
    by_cases h2 : c.type = "model".toList ∨
        (c.type = "class".toList ∧ hasModelBase c = true)
    · rw [if_pos h2, if_pos h2]
    · rw [if_neg h2, if_neg h2]
      by_cases h3 : c.type = "table".toList
      · rw [if_pos h3]
      · rw [if_neg h3]
        by_cases h4 : c.type = "function".toList
        · rw [if_pos h4]
        · rw [if_neg h4]
          by_cases h5 : c.type = "class".toList
          · rw [if_pos h5]
          · rw [if_neg h5]

theorem buildLookupTables_snd (t : Tables) (comps : List CodeComponent) :
    (buildLookupTables t comps).2 = comps.map reclassify := by
  induction comps generalizing t with
  | nil => rfl
  | cons c cs ih =>
    simp only [buildLookupTables, List.map_cons, buildStep_snd, ih]

theorem alookup_pyInsert {α : Type} (m : List (Str × α)) (k q : Str) (v : α) :
    alookup (pyInsert m k v) q = if k = q then some v else alookup m q := by
  induction m with
  | nil =>
    by_cases h : k = q <;> simp [pyInsert, alookup, h]
  | cons p rest ih =>
    obtain ⟨k', v'⟩ := p
    unfold pyInsert
    by_cases hk : k' = k
    · subst hk
      by_cases hq : k' = q
      · subst hq
        simp [alookup]
      · simp [alookup, hq]
    · rw [if_neg hk]
      by_cases hq : k' = q
      · subst hq
        have : ¬ (k = k') := fun h => hk h.symm
        simp [alookup, this]
      · simp [alookup, hq, ih]

theorem getLast?_cons_or {α : Type} (a : α) (l : List α) :
    (a :: l).getLast? = l.getLast?.or (some a) := by
  cases l with
  | nil => rfl
  | cons b t =>
    rw [List.getLast?_cons_cons]
    cases h : (b :: t).getLast? with
    | none => simp at h
    | some x => rfl

/-- The build-pass test selecting the route components stored at key `k`. -/
def isRouteWith (k : Str) (c : CodeComponent) : Bool :=
  c.type == "route".toList && routeKey c == k

theorem buildStep_routes (t : Tables) (c : CodeComponent) :
    (buildStep t c).1.routes =
      if c.type = "route".toList then pyInsert t.routes (routeKey c) c
      else t.routes := by
  unfold buildStep
  by_cases h1 : c.type = "route".toList
  · rw [if_pos h1, if_pos h1]
  · rw [if_neg h1, if_neg h1]
    split_ifs <;> rfl

theorem routes_lookup_lastWins (comps : List CodeComponent) (t : Tables)
    (k : Str) :
    alookup (buildLookupTables t comps).1.routes k =
      ((comps.filter (isRouteWith k)).getLast?).or (alookup t.routes k) := by
  induction comps generalizing t with
  | nil => simp [buildLookupTables]
  | cons c cs ih =>
    show alookup (buildLookupTables (buildStep t c).1 cs).1.routes k = _
    rw [ih, List.filter_cons]
    by_cases hc : isRouteWith k c = true
    · rw [if_pos hc, getLast?_cons_or, Option.or_assoc]
      have hrk : c.type = "route".toList ∧ routeKey c = k := by
        have h := hc
        unfold isRouteWith at h
        simpa only [Bool.and_eq_true, beq_iff_eq] using h
      obtain ⟨hroute, hkey⟩ := hrk
      have : alookup (buildStep t c).1.routes k = some c := by
        rw [buildStep_routes, if_pos hroute, alookup_pyInsert, if_pos hkey]
      rw [this]
      simp
    · rw [if_neg hc]
      have : alookup (buildStep t c).1.routes k = alookup t.routes k := by
        rw [buildStep_routes]
        by_cases hroute : c.type = "route".toList
        · rw [if_pos hroute, alookup_pyInsert]
          have hkey : ¬ (routeKey c = k) := by
            intro hk
            apply hc
            unfold isRouteWith
            simp [hroute, hk]
          rw [if_neg hkey]
        · rw [if_neg hroute]
      rw [this]

/-- C6: given a fixed component sequence the lookup-table build is
deterministic; each route component is keyed by its `route_path` attribute
when present and by its name otherwise; and the `routes` dictionary maps each
key to the last route component in sequence order with that key (last write
wins). -/
theorem build_deterministic_routes_last_write_wins :
    (∀ comps comps' : List CodeComponent, comps = comps' →
      buildLookupTables {} comps = buildLookupTables {} comps') ∧
    (∀ c : CodeComponent, ∀ s,
      metaGet c ("route_path".toList) = some (.s s) → routeKey c = s) ∧
    (∀ c : CodeComponent,
      metaGet c ("route_path".toList) = none → routeKey c = c.name) ∧
    (∀ comps k, alookup (buildLookupTables {} comps).1.routes k =
      (comps.filter (isRouteWith k)).getLast?) := by
  refine ⟨fun _ _ h => by rw [h], ?_, ?_, ?_⟩
  · intro c s h
    unfold routeKey
    rw [h]
  · intro c h
    unfold routeKey
    rw [h]
  · intro comps k
    rw [routes_lookup_lastWins]
    show (comps.filter (isRouteWith k)).getLast?.or (alookup [] k) = _
    rw [show alookup ([] : List (Str × CodeComponent)) k = none from rfl]
    exact Option.or_none

def routeOne : CodeComponent :=
  { type := "route".toList, name := "index".toList, filepath := "a.py".toList,
    line_start := 1, line_end := 2, decorators := ["app.route".toList],
    metadata := [("route_path".toList, .s "/x".toList)] }

def routeTwo : CodeComponent :=
  { type := "route".toList, name := "index2".toList, filepath := "b.py".toList,
    line_start := 5, line_end := 9, decorators := ["app.route".toList],
    metadata := [("route_path".toList, .s "/x".toList)] }

theorem build_deterministic_routes_last_write_wins_witness :
    routeKey routeOne = "/x".toList ∧
    alookup (buildLookupTables {} [routeOne, routeTwo]).1.routes
      ("/x".toList) = some routeTwo := by
  constructor
  · exact build_deterministic_routes_last_write_wins.2.1 routeOne
      ("/x".toList) rfl
  · rw [build_deterministic_routes_last_write_wins.2.2.2 [routeOne, routeTwo]
      ("/x".toList)]
    decide

/-- The build-pass test selecting the components stored in `models` at key
`k`: already-`model`-typed components, and `class` components with a
`Model`-marked base. -/
def isModelEntry (k : Str) (c : CodeComponent) : Bool :=
  (c.type == "model".toList ||
    (c.type == "class".toList && hasModelBase c)) && c.name == k

/-- The build-pass test selecting the components stored in `classes` at key
`k`: `class` components with no `Model`-marked base. -/
def isClassEntry (k : Str) (c : CodeComponent) : Bool :=
  c.type == "class".toList && !hasModelBase c && c.name == k

theorem buildStep_models (t : Tables) (c : CodeComponent) :
    (buildStep t c).1.models =
      if c.type = "model".toList ∨
          (c.type = "class".toList ∧ hasModelBase c = true) then
        pyInsert t.models c.name { c with type := "model".toList }
      else t.models := by
  unfold buildStep
  by_cases h1 : c.type = "route".toList
  · rw [if_pos h1, if_neg (by simp [h1])]
  · rw [if_neg h1]
    by_cases h2 : c.type = "model".toList ∨
        (c.type = "class".toList ∧ hasModelBase c = true)
    · rw [if_pos h2, if_pos h2]
    · rw [if_neg h2, if_neg h2]
      split_ifs <;> rfl

theorem buildStep_classes (t : Tables) (c : CodeComponent) :
    (buildStep t c).1.classes =
      if c.type = "class".toList ∧ hasModelBase c = false then
        pyInsert t.classes c.name c
      else t.classes := by
  unfold buildStep
  by_cases h1 : c.type = "route".toList
  · rw [if_pos h1, if_neg (by simp [h1])]
  · rw [if_neg h1]
    by_cases h2 : c.type = "model".toList ∨
        (c.type = "class".toList ∧ hasModelBase c = true)
    · rw [if_pos h2]
      rcases h2 with h2 | h2
      · rw [if_neg (by simp [h2])]
      · rw [if_neg (by simp [h2.2])]
    · rw [if_neg h2]
      by_cases h3 : c.type = "table".toList
      · rw [if_pos h3, if_neg (by simp [h3])]
      · rw [if_neg h3]
        by_cases h4 : c.type = "function".toList
        · rw [if_pos h4, if_neg (by simp [h4])]
        · rw [if_neg h4]
          by_cases h5 : c.type = "class".toList
          · rw [if_pos h5]
            have hnb : hasModelBase c = false := by
              cases h : hasModelBase c
              · rfl
              · exact absurd (Or.inr ⟨h5, h⟩) h2
            rw [if_pos ⟨h5, hnb⟩]
          · rw [if_neg h5, if_neg (fun h => h5 h.1)]

theorem models_lookup_lastWins (comps : List CodeComponent) (t : Tables)
    (k : Str) :
    alookup (buildLookupTables t comps).1.models k =
      (((comps.filter (isModelEntry k)).map
        (fun c => { c with type := "model".toList })).getLast?).or
        (alookup t.models k) := by
  induction comps generalizing t with
  | nil => simp [buildLookupTables]
  | cons c cs ih =>
    show alookup (buildLookupTables (buildStep t c).1 cs).1.models k = _
    rw [ih, List.filter_cons]
    by_cases hc : isModelEntry k c = true
    · have hck : (c.type = "model".toList ∨
          (c.type = "class".toList ∧ hasModelBase c = true)) ∧ c.name = k := by
        have h := hc
        unfold isModelEntry at h
        simp only [Bool.and_eq_true, Bool.or_eq_true, beq_iff_eq] at h
        tauto
      rw [if_pos hc, List.map_cons, getLast?_cons_or, Option.or_assoc]
      have : alookup (buildStep t c).1.models k =
          some { c with type := "model".toList } := by
        rw [buildStep_models, if_pos hck.1, alookup_pyInsert, if_pos hck.2]
      rw [this]
      simp
    · rw [if_neg hc]
      have : alookup (buildStep t c).1.models k = alookup t.models k := by
        rw [buildStep_models]
        by_cases hm : c.type = "model".toList ∨
            (c.type = "class".toList ∧ hasModelBase c = true)
        · rw [if_pos hm, alookup_pyInsert]
          have hk : ¬ (c.name = k) := by
            intro hk
            apply hc
            unfold isModelEntry
            simp only [Bool.and_eq_true, Bool.or_eq_true, beq_iff_eq]
            constructor
            · rcases hm with h | h
              · exact Or.inl h
              · exact Or.inr ⟨h.1, h.2⟩
            · exact hk
          rw [if_neg hk]
        · rw [if_neg hm]
      rw [this]

theorem classes_lookup_lastWins (comps : List CodeComponent) (t : Tables)
    (k : Str) :
    alookup (buildLookupTables t comps).1.classes k =
      ((comps.filter (isClassEntry k)).getLast?).or
        (alookup t.classes k) := by
  induction comps generalizing t with
  | nil => simp [buildLookupTables]
  | cons c cs ih =>
    show alookup (buildLookupTables (buildStep t c).1 cs).1.classes k = _
    rw [ih, List.filter_cons]
    by_cases hc : isClassEntry k c = true
    · have hck : (c.type = "class".toList ∧ hasModelBase c = false) ∧
          c.name = k := by
        have h := hc
        unfold isClassEntry at h
        simp only [Bool.and_eq_true, Bool.not_eq_true', beq_iff_eq] at h
        tauto
      rw [if_pos hc, getLast?_cons_or, Option.or_assoc]
      have : alookup (buildStep t c).1.classes k = some c := by
        rw [buildStep_classes, if_pos hck.1, alookup_pyInsert, if_pos hck.2]
      rw [this]
      simp
    · rw [if_neg hc]
      have : alookup (buildStep t c).1.classes k = alookup t.classes k := by
        rw [buildStep_classes]
        by_cases hm : c.type = "class".toList ∧ hasModelBase c = false
        · rw [if_pos hm, alookup_pyInsert]
          have hk : ¬ (c.name = k) := by
            intro hk
            apply hc
            unfold isClassEntry
            simp only [Bool.and_eq_true, Bool.not_eq_true', beq_iff_eq]
            exact ⟨⟨hm.1, hm.2⟩, hk⟩
          rw [if_neg hk]
        · rw [if_neg hm]
      rw [this]

/-- C7: during the lookup-table build pass, every class component with a
`Model`-marked base name is entered into the `models` map under its class
name and its kind is reclassified from `class` to `model`; class components
with no such base are entered into the `classes` map and keep kind `class`. -/
theorem model_class_partition (comps : List CodeComponent)
    (c : CodeComponent) (hc : c ∈ comps) (hclass : c.type = "class".toList) :
    ((buildLookupTables {} comps).2 = comps.map reclassify) ∧
    (hasModelBase c = true →
      reclassify c = { c with type := "model".toList } ∧
      ∃ d, alookup (buildLookupTables {} comps).1.models c.name = some d ∧
        d.name = c.name ∧ d.type = "model".toList) ∧
    (hasModelBase c = false →
      reclassify c = c ∧
      ∃ d, alookup (buildLookupTables {} comps).1.classes c.name = some d ∧
        d.name = c.name ∧ d.type = "class".toList) := by
  refine ⟨buildLookupTables_snd _ _, ?_, ?_⟩
  · intro hmb
    refine ⟨by unfold reclassify; rw [if_pos (Or.inr ⟨hclass, hmb⟩)], ?_⟩
    rw [models_lookup_lastWins]
    rw [show alookup ({} : Tables).models c.name = none from rfl,
      Option.or_none]
    have hentry : isModelEntry c.name c = true := by
      unfold isModelEntry
      simp [hclass, hmb]
    have hmem : c ∈ comps.filter (isModelEntry c.name) :=
      List.mem_filter.mpr ⟨hc, hentry⟩
    have hne : (comps.filter (isModelEntry c.name)).map
        (fun x => { x with type := "model".toList }) ≠ [] := by
      intro h
      rw [List.map_eq_nil_iff] at h
      rw [h] at hmem
      cases hmem
    obtain ⟨d, hd⟩ : ∃ d, ((comps.filter (isModelEntry c.name)).map
        (fun x => { x with type := "model".toList })).getLast? = some d := by
      cases h : ((comps.filter (isModelEntry c.name)).map
          (fun x => { x with type := "model".toList })).getLast? with
      | none => exact absurd (List.getLast?_eq_none_iff.mp h) hne
      | some d => exact ⟨d, rfl⟩
    refine ⟨d, hd, ?_⟩
    have hdmem : d ∈ (comps.filter (isModelEntry c.name)).map
        (fun x => { x with type := "model".toList }) :=
      List.mem_of_mem_getLast? (by rw [hd]; exact rfl)
    rcases List.mem_map.mp hdmem with ⟨x, hxl, hxf⟩
    have hxe : isModelEntry c.name x = true := (List.mem_filter.mp hxl).2
    have hxname : x.name = c.name := by
      unfold isModelEntry at hxe
      simp only [Bool.and_eq_true, beq_iff_eq] at hxe
      exact hxe.2
    rw [← hxf]
    exact ⟨hxname, rfl⟩
  · intro hmb
    refine ⟨by unfold reclassify; rw [if_neg (by simp [hclass, hmb])], ?_⟩
    rw [classes_lookup_lastWins]
    rw [show alookup ({} : Tables).classes c.name = none from rfl,
      Option.or_none]
    have hentry : isClassEntry c.name c = true := by
      unfold isClassEntry
      simp [hclass, hmb]
    have hmem : c ∈ comps.filter (isClassEntry c.name) :=
      List.mem_filter.mpr ⟨hc, hentry⟩
    have hne : comps.filter (isClassEntry c.name) ≠ [] := by
      intro h
      rw [h] at hmem
      cases hmem
    obtain ⟨d, hd⟩ : ∃ d, (comps.filter (isClassEntry c.name)).getLast? =
        some d := by
      cases h : (comps.filter (isClassEntry c.name)).getLast? with
      | none => exact absurd (List.getLast?_eq_none_iff.mp h) hne
      | some d => exact ⟨d, rfl⟩
    refine ⟨d, hd, ?_⟩
    have hdmem : d ∈ comps.filter (isClassEntry c.name) :=
      List.mem_of_mem_getLast? (by rw [hd]; exact rfl)
    have hde : isClassEntry c.name d = true := (List.mem_filter.mp hdmem).2
    unfold isClassEntry at hde
    simp only [Bool.and_eq_true, Bool.not_eq_true', beq_iff_eq] at hde
    exact ⟨hde.2, hde.1.1⟩

def modelClassComp : CodeComponent :=
  { type := "class".toList, name := "User".toList, filepath := "m.py".toList,
    line_start := 1, line_end := 4,
    metadata := [("bases".toList, .ls ["db.Model".toList])] }

def plainClassComp : CodeComponent :=
  { type := "class".toList, name := "Helper".toList, filepath := "h.py".toList,
    line_start := 1, line_end := 4,
    metadata := [("bases".toList, .ls ["object".toList])] }

theorem model_class_partition_witness :
    (∃ d, alookup (buildLookupTables {}
        [modelClassComp, plainClassComp]).1.models ("User".toList) = some d ∧
      d.name = "User".toList ∧ d.type = "model".toList) ∧
    (∃ d, alookup (buildLookupTables {}
        [modelClassComp, plainClassComp]).1.classes ("Helper".toList) =
          some d ∧
      d.name = "Helper".toList ∧ d.type = "class".toList) :=
  ⟨((model_class_partition [modelClassComp, plainClassComp] modelClassComp
      (by decide) (by decide)).2.1 (by decide)).2,
   ((model_class_partition [modelClassComp, plainClassComp] plainClassComp
      (by decide) (by decide)).2.2 (by decide)).2⟩

/-! ## Python AST fragment (`_index_python_file` and its helpers)

Only the node shapes the indexer inspects are modelled: class and function
declarations (with position info), the two import statement forms, expression
statements (for docstrings), and the expression forms `_get_name` /
`_get_decorator_name` / `_extract_route_path` match on (`Name`, `Attribute`,
`Call`, `Constant`).  Every other node is `other`.  Expressions contain no
statements, so the statement-only walk below visits exactly the
`ClassDef`/`FunctionDef` nodes `ast.walk` would, in the same relative
order. -/

inductive PyExpr where
  | name (id : Str)
  | attr (value : PyExpr) (a : Str)
  | call (func : PyExpr) (args : List PyExpr)
  | const (s : Str)

inductive PyStmt where
  | classDef (nm : Str) (bases : List PyExpr) (decoratorList : List PyExpr)
      (body : List PyStmt) (lineno : Nat) (endLineno : Option Nat)
  | funcDef (nm : Str) (args : List Str) (decoratorList : List PyExpr)
      (body : List PyStmt) (lineno : Nat) (endLineno : Option Nat)
  | imp (names : List Str)
  | impFrom (module : Option Str)
  | exprStmt (e : PyExpr)
  | other

/-- `_get_name`: dotted-name rendering.  `str(node)` on the remaining node
kinds yields a CPython object repr; it is modelled by a fixed placeholder. -/
def getName : PyExpr → Str
  | .name id => id
  | .attr v a => getName v ++ ('.' :: a)
  | .call _ _ => "<ast.Call>".toList
  | .const _ => "<ast.Constant>".toList

/-- `_get_decorator_name`: like `_get_name` but unwraps calls to their
callee. -/
def getDecoratorName : PyExpr → Str
  | .name id => id
  | .attr v a => getName v ++ ('.' :: a)
  | .call f _ => getDecoratorName f
  | .const _ => "<ast.Constant>".toList

/-- `ast.get_docstring(node) or ""`: the leading string-constant expression
statement of a body, if any (modelled without `cleandoc` whitespace
normalisation, which the claims do not touch). -/
def getDocstring : List PyStmt → Str
  | .exprStmt (.const s) :: _ => s
  | _ => []

/-- `_extract_route_path`: return the first decorator that is a call whose
callee has an `attr` field equal to `'route'` and whose first argument is a
constant; `""` when none. -/
def extractRoutePath : List PyExpr → Str
  | [] => []
  | .call f args :: ds =>
    (match f with
     | .attr _ a =>
       if a = "route".toList then
         match args with
         | .const s :: _ => s
         | _ => extractRoutePath ds
       else extractRoutePath ds
     | _ => extractRoutePath ds)
  | _ :: ds => extractRoutePath ds

/-- `node.end_lineno or node.lineno` (Python `or` falls through on falsy
values, i.e. `None` and `0`). -/
def endOr (endLineno : Option Nat) (lineno : Nat) : Nat :=
  match endLineno with
  | some e => if e = 0 then lineno else e
  | none => lineno

/-- `', '.join(args)`. -/
def joinCommaSp : List Str → Str
  | [] => []
  | [a] => a
  | a :: rest => a ++ (", ".toList) ++ joinCommaSp rest

/-- `_index_function`: build the component appended for one function node. -/
def indexFunctionComp (filepath : Str) (imports : List Str)
    (parentClass : Str) (nm : Str) (args : List Str)
    (decoratorList : List PyExpr) (body : List PyStmt) (lineno : Nat)
    (endLineno : Option Nat) : CodeComponent :=
  let decorators := decoratorList.map getDecoratorName
  let routePath := extractRoutePath decoratorList
  { type := if decorators.any (fun d => strIn ("route".toList) (lowerStr d))
      then "route".toList else "function".toList,
    name := nm,
    filepath := filepath,
    line_start := lineno,
    line_end := endOr endLineno lineno,
    docstring := getDocstring body,
    signature := nm ++ ('(' :: joinCommaSp args) ++ [')'],
    decorators := decorators,
    parent_class := parentClass,
    imports := imports,
    metadata := if routePath ≠ [] then
        [("route_path".toList, .s routePath)]
      else [] }

/-- `_index_class`: build the class component appended for one class node. -/
def indexClassComp (filepath : Str) (imports : List Str) (nm : Str)
    (bases : List PyExpr) (decoratorList : List PyExpr) (body : List PyStmt)
    (lineno : Nat) (endLineno : Option Nat) : CodeComponent :=
  { type := "class".toList,
    name := nm,
    filepath := filepath,
    line_start := lineno,
    line_end := endOr endLineno lineno,
    docstring := getDocstring body,
    decorators := decoratorList.map getDecoratorName,
    imports := imports,
    metadata := [("bases".toList, .ls (bases.map getName))] }

/-- The components the `for node in ast.walk(tree)` loop appends for one
visited node: `_index_class` (class component plus its direct methods, with
`parent_class` set) for a `ClassDef`, `_index_function` with empty
`parent_class` for a `FunctionDef`, nothing otherwise. -/
def nodeComponents (filepath : Str) (imports : List Str) :
    PyStmt → List CodeComponent
  | .classDef nm bases decs body ln el =>
    indexClassComp filepath imports nm bases decs body ln el ::
      body.filterMap (fun item =>
        match item with
        | .funcDef fn fargs fdecs fbody fln fel =>
          some (indexFunctionComp filepath imports nm fn fargs fdecs fbody
            fln fel)
        | _ => none)
  | .funcDef fn fargs fdecs fbody fln fel =>
    [indexFunctionComp filepath imports [] fn fargs fdecs fbody fln fel]
  | _ => []

def stmtChildren : PyStmt → List PyStmt
  | .classDef _ _ _ body _ _ => body
  | .funcDef _ _ _ body _ _ => body
  | _ => []

mutual
def sizeStmt : PyStmt → Nat
  | .classDef _ _ _ body _ _ => 1 + sizeStmts body
  | .funcDef _ _ _ body _ _ => 1 + sizeStmts body
  | _ => 1

def sizeStmts : List PyStmt → Nat
  | [] => 0
  | s :: rest => sizeStmt s + sizeStmts rest
end

/-- The children of every node of one breadth-first level, concatenated. -/
def childrenOfAll (q : List PyStmt) : List PyStmt :=
  (q.map stmtChildren).flatten

/-- Fuelled breadth-first traversal by levels. -/
def walkAux : Nat → List PyStmt → List PyStmt
  | 0, _ => []
  | _, [] => []
  | fuel + 1, q => q ++ walkAux fuel (childrenOfAll q)

/-- `ast.walk(tree)` restricted to statements: breadth-first, level by level,
which is exactly the order `ast.walk`'s deque produces. -/
def walk (body : List PyStmt) : List PyStmt :=
  walkAux (sizeStmts body + 1) body

/-- Import collection over the module walk (`ast.Import` alias names and
truthy `ast.ImportFrom` modules, in walk order). -/
def importsOf : PyStmt → List Str
  | .imp names => names
  | .impFrom m =>
    (match m with
     | some s => if s = [] then [] else [s]
     | none => [])
  | _ => []

def collectImports (body : List PyStmt) : List Str :=
  ((walk body).map importsOf).flatten

/-- `len(content.splitlines())` for text whose line break is `'\n'`:
a trailing newline does not open a new line, and the empty string has zero
lines. -/
def countLines (s : Str) : Nat :=
  s.count '\n' + (if s ≠ [] ∧ s.getLast? ≠ some '\n' then 1 else 0)

/-! ## The indexing run (`_index_python_file` and the file loop) -/

/-- The indexer's accumulating state: the component sequence, the
`files_indexed` set (a list with first-occurrence insertion), and the error
log — one `(path, message)` entry per caught per-file exception (the code
reports these with `print`; no exception ever escapes the `except` clause,
which the total return type of the embedding reflects). -/
structure IndexerState where
  components : List CodeComponent := []
  files_indexed : List Str := []
  errors : List (Str × Str) := []
deriving DecidableEq, Repr

/-- `set.add`: insert if absent. -/
def insertNew (l : List Str) (x : Str) : List Str :=
  if x ∈ l then l else l ++ [x]

/-- One Python file presented to `_index_python_file`: its root-relative path
(`str(filepath.relative_to(self.project_root))`), its base name
(`filepath.name`), and the outcome of `read_text` + `ast.parse` — either an
error message or the source text with the parsed module body. -/
structure PyFile where
  relPath : Str
  fileName : Str
  parsed : Except Str (Str × List PyStmt)

/-- The file-level component `_index_python_file` appends first. -/
def fileComponentOf (f : PyFile) (content : Str) (body : List PyStmt) :
    CodeComponent :=
  { type := "file".toList,
    name := f.fileName,
    filepath := f.relPath,
    line_start := 1,
    line_end := countLines content,
    docstring := getDocstring body,
    imports := collectImports body,
    metadata := [("language".toList, .s ("python".toList)),
                 ("size".toList, .n (content.length : Int))] }

/-- `_index_python_file`: on a parse/read failure, record the error and leave
everything else unchanged; on success, record the file, append the
file-level component, then append the walk-loop components. -/
def indexPythonFile (st : IndexerState) (f : PyFile) : IndexerState :=
  match f.parsed with
  | .error e => { st with errors := st.errors ++ [(f.relPath, e)] }
  | .ok (content, body) =>
    { st with
      files_indexed := insertNew st.files_indexed f.relPath,
      components := st.components ++ fileComponentOf f content body ::
        ((walk body).map
          (nodeComponents f.relPath (collectImports body))).flatten }

/-- The `for py_file in python_files` loop. -/
def indexPythonFiles (st : IndexerState) (files : List PyFile) :
    IndexerState :=
  files.foldl indexPythonFile st

/-- C9: a file whose parse raises contributes zero components, gets an error
record with its path and message, does not abort (the embedding is total, the
`except` clause catches everything), and the loop over the remaining files
proceeds exactly as if the failing file only logged its error. -/
theorem parse_error_skips_file (st : IndexerState) (f : PyFile) (e : Str)
    (hf : f.parsed = .error e) :
    indexPythonFile st f =
      { st with errors := st.errors ++ [(f.relPath, e)] } ∧
    (indexPythonFile st f).components = st.components ∧
    (indexPythonFile st f).files_indexed = st.files_indexed ∧
    (∀ pre post : List PyFile,
      indexPythonFiles st (pre ++ f :: post) =
        indexPythonFiles
          { indexPythonFiles st pre with
            errors := (indexPythonFiles st pre).errors ++ [(f.relPath, e)] }
          post) := by
  have hstep : ∀ s : IndexerState, indexPythonFile s f =
      { s with errors := s.errors ++ [(f.relPath, e)] } := by
    intro s
    unfold indexPythonFile
    rw [hf]
  refine ⟨hstep st, by rw [hstep st], by rw [hstep st], ?_⟩
  intro pre post
  unfold indexPythonFiles
  rw [List.foldl_append, List.foldl_cons, hstep _]

def badPyFile : PyFile :=
  { relPath := "bad.py".toList, fileName := "bad.py".toList,
    parsed := .error ("invalid syntax".toList) }

def goodPyFile : PyFile :=
  { relPath := "ok.py".toList, fileName := "ok.py".toList,
    parsed := .ok ("x = 1".toList, [.other]) }

theorem parse_error_skips_file_witness :
    (indexPythonFile {} badPyFile).components = [] ∧
    indexPythonFiles {} ([] ++ badPyFile :: [goodPyFile]) =
      indexPythonFiles
        { indexPythonFiles {} [] with
          errors := (indexPythonFiles ({} : IndexerState) []).errors ++
            [("bad.py".toList, "invalid syntax".toList)] }
        [goodPyFile] := by
  have h := parse_error_skips_file {} badPyFile ("invalid syntax".toList) rfl
  exact ⟨h.2.1, h.2.2.2 [] [goodPyFile]⟩

def emptyPyFile : PyFile :=
  { relPath := "empty.py".toList, fileName := "empty.py".toList,
    parsed := .ok ([], []) }

/-- C4 (failing input): a successfully parsed Python file with empty text
(`ast.parse("")` succeeds) is emitted as a single file component with
`line_start = 1` and `line_end = len("".splitlines()) = 0`, so
`line_end >= line_start` fails on it. -/
theorem empty_file_violates_line_span :
    (indexPythonFile {} emptyPyFile).components.map
      (fun c => (c.type, c.line_start, c.line_end)) =
      [("file".toList, 1, 0)] ∧
    ∃ c ∈ (indexPythonFile {} emptyPyFile).components,
      c.line_end < c.line_start := by
  constructor
  · rfl
  · refine ⟨(indexPythonFile {} emptyPyFile).components.head (by decide), ?_, ?_⟩
    · exact List.head_mem _
    · decide

def emptyRouteDecorator : PyExpr :=
  .call (.attr (.name ("app".toList)) ("route".toList)) [.const []]

/-- C5 counterexample: with decorator `@app.route("")` — a call whose callee
is an attribute access literally named `route` with a literal first
argument — the emitted component carries NO `route_path` attribute, because
`metadata={'route_path': route_path} if route_path else {}` drops the falsy
empty string; yet the claim requires the attribute to be set exactly then.
(The same component already has kind `route` in the component built at
extraction time, not during lookup-table construction.) -/
theorem route_path_empty_literal_counterexample :
    (∃ d ∈ [emptyRouteDecorator], ∃ v a args,
      d = PyExpr.call (.attr v ("route".toList)) (PyExpr.const a :: args)) ∧
    metaGet (indexFunctionComp ("a.py".toList) [] [] ("h".toList) []
      [emptyRouteDecorator] [] 1 (some 2)) ("route_path".toList) = none ∧
    (indexFunctionComp ("a.py".toList) [] [] ("h".toList) []
      [emptyRouteDecorator] [] 1 (some 2)).type = "route".toList := by
  refine ⟨⟨emptyRouteDecorator, ?_, PyExpr.name ("app".toList), [], [], rfl⟩,
    rfl, rfl⟩
  exact List.mem_singleton.mpr rfl

/-- C5 (amended): a function declaration is emitted with kind `route` rather
than `function` iff some decorator name contains `"route"`
case-insensitively, and this happens at extraction time — the lookup-table
build pass leaves `function`-kind components untouched; the `route_path`
attribute is present iff `_extract_route_path` (the first decorator that is a
call whose callee is an attribute literally named `route` with a constant
first argument) yields a non-empty string, and then equals that string. -/
theorem route_kind_and_path_at_extraction (filepath : Str)
    (imports : List Str) (parentClass nm : Str) (args : List Str)
    (decs : List PyExpr) (body : List PyStmt) (lineno : Nat)
    (endLineno : Option Nat) :
    ((indexFunctionComp filepath imports parentClass nm args decs body
        lineno endLineno).type = "route".toList ↔
      (decs.map getDecoratorName).any
        (fun d => strIn ("route".toList) (lowerStr d)) = true) ∧
    (metaGet (indexFunctionComp filepath imports parentClass nm args decs
        body lineno endLineno) ("route_path".toList) =
      if extractRoutePath decs = [] then none
      else some (.s (extractRoutePath decs))) ∧
    (∀ t c, c.type = "function".toList → (buildStep t c).2 = c) := by
  refine ⟨?_, ?_, ?_⟩
  · have htype : (indexFunctionComp filepath imports parentClass nm args decs
        body lineno endLineno).type =
        (if (decs.map getDecoratorName).any
            (fun d => strIn ("route".toList) (lowerStr d)) = true
          then "route".toList else "function".toList) := rfl
    rw [htype]
    by_cases ha : (decs.map getDecoratorName).any
        (fun d => strIn ("route".toList) (lowerStr d)) = true
    · rw [if_pos ha]
      exact iff_of_true rfl ha
    · rw [if_neg ha]
      constructor
      · intro h
        exact absurd h (by decide)
      · intro h
        exact absurd h ha
  · have hmeta : (indexFunctionComp filepath imports parentClass nm args decs
        body lineno endLineno).metadata =
        (if extractRoutePath decs ≠ [] then
          [("route_path".toList, MetaVal.s (extractRoutePath decs))]
        else []) := rfl
    unfold metaGet
    rw [hmeta]
    by_cases hrp : extractRoutePath decs = []
    · rw [if_pos hrp, if_neg (fun h => h hrp)]
      rfl
    · rw [if_neg hrp, if_pos hrp]
      unfold alookup
      rw [if_pos rfl]
  · intro t c hc
    rw [buildStep_snd]
    unfold reclassify
    rw [if_neg (by simp [hc])]

def plainFunctionComp : CodeComponent :=
  { type := "function".toList, name := "g".toList,
    filepath := "a.py".toList, line_start := 1, line_end := 1 }

def routeDecoratorSlash : PyExpr :=
  .call (.attr (.name ("app".toList)) ("route".toList)) [.const ("/idx".toList)]

theorem route_kind_and_path_at_extraction_witness :
    (buildStep {} plainFunctionComp).2 = plainFunctionComp ∧
    (indexFunctionComp ("a.py".toList) [] [] ("h".toList) []
      [routeDecoratorSlash] [] 1 (some 2)).type = "route".toList ∧
    metaGet (indexFunctionComp ("a.py".toList) [] [] ("h".toList) []
      [routeDecoratorSlash] [] 1 (some 2)) ("route_path".toList) =
      some (.s ("/idx".toList)) := by
  have h := route_kind_and_path_at_extraction ("a.py".toList) [] [] ("h".toList)
    [] [routeDecoratorSlash] [] 1 (some 2)
  refine ⟨(route_kind_and_path_at_extraction ("a.py".toList) [] [] ("g".toList)
    [] [] [] 1 none).2.2 {} plainFunctionComp rfl, h.1.mpr (by decide), ?_⟩
  rw [h.2.1]
  decide

/-! ## Walk lemmas and the double-indexing of methods -/

theorem walkAux_nil (fuel : Nat) : walkAux fuel [] = [] := by
  cases fuel <;> rfl

theorem sizeStmts_append (a b : List PyStmt) :
    sizeStmts (a ++ b) = sizeStmts a + sizeStmts b := by
  induction a with
  | nil => simp [sizeStmts]
  | cons s rest ih =>
    show sizeStmt s + sizeStmts (rest ++ b) =
      sizeStmt s + sizeStmts rest + sizeStmts b
    rw [ih]
    omega

theorem sizeStmt_children (s : PyStmt) :
    sizeStmts (stmtChildren s) + 1 ≤ sizeStmt s := by
  cases s <;> simp [stmtChildren, sizeStmt, sizeStmts] <;> omega

theorem sizeStmts_children_lt (q : List PyStmt) (h : q ≠ []) :
    sizeStmts (childrenOfAll q) < sizeStmts q := by
  induction q with
  | nil => exact absurd rfl h
  | cons s rest ih =>
    show sizeStmts ((stmtChildren s :: rest.map stmtChildren).flatten) < _
    rw [List.flatten_cons, sizeStmts_append]
    have h1 := sizeStmt_children s
    by_cases hr : rest = []
    · subst hr
      show sizeStmts (stmtChildren s) + sizeStmts (childrenOfAll []) < _
      have : sizeStmts (childrenOfAll []) = 0 := rfl
      rw [this]
      show _ < sizeStmt s + sizeStmts []
      have : sizeStmts ([] : List PyStmt) = 0 := rfl
      omega
    · have h2 := ih hr
      show sizeStmts (stmtChildren s) + sizeStmts (childrenOfAll rest) <
        sizeStmt s + sizeStmts rest
      omega

theorem walkAux_fuel_irrel : ∀ (f1 f2 : Nat) (q : List PyStmt),
    sizeStmts q < f1 → sizeStmts q < f2 → walkAux f1 q = walkAux f2 q := by
  intro f1
  induction f1 with
  | zero =>
    intro f2 q h1 h2
    omega
  | succ n ih =>
    intro f2 q h1 h2
    cases q with
    | nil => rw [walkAux_nil, walkAux_nil]
    | cons s rest =>
      cases f2 with
      | zero => omega
      | succ m =>
        show (s :: rest) ++ walkAux n (childrenOfAll (s :: rest)) =
          (s :: rest) ++ walkAux m (childrenOfAll (s :: rest))
        congr 1
        have hlt := sizeStmts_children_lt (s :: rest) (by simp)
        exact ih m _ (by omega) (by omega)

theorem mem_walkAux_self {q : List PyStmt} {x : PyStmt} (fuel : Nat)
    (h : sizeStmts q < fuel) (hx : x ∈ q) : x ∈ walkAux fuel q := by
  cases fuel with
  | zero => omega
  | succ n =>
    cases q with
    | nil => cases hx
    | cons s rest => exact List.mem_append_left _ hx

theorem mem_walkAux_children {x y : PyStmt} : ∀ (fuel : Nat)
    (q : List PyStmt), sizeStmts q < fuel → x ∈ walkAux fuel q →
    y ∈ stmtChildren x → y ∈ walkAux fuel q := by
  intro fuel
  induction fuel with
  | zero =>
    intro q h
    omega
  | succ n ih =>
    intro q h hx hy
    cases q with
    | nil =>
      rw [walkAux_nil] at hx
      cases hx
    | cons s rest =>
      have heq : walkAux (n + 1) (s :: rest) =
          (s :: rest) ++ walkAux n (childrenOfAll (s :: rest)) := rfl
      rw [heq] at hx ⊢
      have hlt : sizeStmts (childrenOfAll (s :: rest)) < n := by
        have := sizeStmts_children_lt (s :: rest) (by simp)
        omega
      rcases List.mem_append.mp hx with hq | hw
      · have hyc : y ∈ childrenOfAll (s :: rest) := by
          unfold childrenOfAll
          rw [List.mem_flatten]
          exact ⟨stmtChildren x, List.mem_map_of_mem _ hq, hy⟩
        exact List.mem_append_right _ (mem_walkAux_self n hlt hyc)
      · exact List.mem_append_right _ (ih _ hlt hw hy)

theorem mem_walk_self {body : List PyStmt} {x : PyStmt} (hx : x ∈ body) :
    x ∈ walk body :=
  mem_walkAux_self _ (Nat.lt_succ_self _) hx

theorem mem_walk_children {body : List PyStmt} {x y : PyStmt}
    (hx : x ∈ walk body) (hy : y ∈ stmtChildren x) : y ∈ walk body :=
  mem_walkAux_children _ _ (Nat.lt_succ_self _) hx hy

theorem mem_indexPythonFile_components {st : IndexerState} {f : PyFile}
    {content : Str} {body : List PyStmt}
    (hok : f.parsed = .ok (content, body)) {node : PyStmt}
    {c : CodeComponent} (hn : node ∈ walk body)
    (hc : c ∈ nodeComponents f.relPath (collectImports body) node) :
    c ∈ (indexPythonFile st f).components := by
  have hcomp : (indexPythonFile st f).components =
      st.components ++ fileComponentOf f content body ::
        ((walk body).map
          (nodeComponents f.relPath (collectImports body))).flatten := by
    unfold indexPythonFile
    rw [hok]
  rw [hcomp]
  apply List.mem_append_right
  apply List.mem_cons_of_mem
  rw [List.mem_flatten]
  exact ⟨nodeComponents f.relPath (collectImports body) node,
    List.mem_map_of_mem _ hn, hc⟩

theorem alookup_appendAt (m : List (Str × List CodeComponent)) (k q : Str)
    (v : CodeComponent) :
    alookup (appendAt m k v) q =
      if k = q then some ((alookup m k).getD [] ++ [v])
      else alookup m q := by
  induction m with
  | nil =>
    by_cases h : k = q <;> simp [appendAt, alookup, h]
  | cons p rest ih =>
    obtain ⟨k', l⟩ := p
    unfold appendAt
    by_cases hk : k' = k
    · subst hk
      by_cases hq : k' = q
      · subst hq
        simp [alookup]
      · simp [alookup, hq]
    · rw [if_neg hk]
      by_cases hq : k' = q
      · subst hq
        have hkq : ¬ (k = k') := fun h => hk h.symm
        simp [alookup, hkq]
      · simp only [alookup, if_neg hq, ih]
        by_cases hkq : k = q
        · subst hkq
          rw [if_pos rfl, if_pos rfl]
          have : ¬ (k' = k) := hk
          simp [alookup, this]
        · rw [if_neg hkq, if_neg hkq]

theorem buildStep_functions (t : Tables) (c : CodeComponent) :
    (buildStep t c).1.functions =
      if c.type = "function".toList then appendAt t.functions c.name c
      else t.functions := by
  unfold buildStep
  by_cases h1 : c.type = "route".toList
  · rw [if_pos h1, if_neg (by simp [h1])]
  · rw [if_neg h1]
    by_cases h2 : c.type = "model".toList ∨
        (c.type = "class".toList ∧ hasModelBase c = true)
    · rw [if_pos h2]
      rcases h2 with h2 | h2
      · rw [if_neg (by simp [h2])]
      · rw [if_neg (by simp [h2.1])]
    · rw [if_neg h2]
      by_cases h3 : c.type = "table".toList
      · rw [if_pos h3, if_neg (by simp [h3])]
      · rw [if_neg h3]
        by_cases h4 : c.type = "function".toList
        · rw [if_pos h4, if_pos h4]
        · rw [if_neg h4, if_neg h4]
          split_ifs <;> rfl

theorem functions_preserved (comps : List CodeComponent) (t : Tables)
    {k : Str} {c : CodeComponent}
    (h : ∃ l, alookup t.functions k = some l ∧ c ∈ l) :
    ∃ l, alookup (buildLookupTables t comps).1.functions k = some l ∧
      c ∈ l := by
  induction comps generalizing t with
  | nil => exact h
  | cons d cs ih =>
    apply ih
    rcases h with ⟨l, hl, hcl⟩
    rw [buildStep_functions]
    by_cases hd : d.type = "function".toList
    · rw [if_pos hd, alookup_appendAt]
      by_cases hk : d.name = k
      · rw [if_pos hk, hk, hl]
        exact ⟨l ++ [d], rfl, List.mem_append_left _ hcl⟩
      · rw [if_neg hk]
        exact ⟨l, hl, hcl⟩
    · rw [if_neg hd]
      exact ⟨l, hl, hcl⟩

theorem functions_lookup_mem (comps : List CodeComponent) (t : Tables)
    (c : CodeComponent) (hc : c ∈ comps)
    (hf : c.type = "function".toList) :
    ∃ l, alookup (buildLookupTables t comps).1.functions c.name = some l ∧
      c ∈ l := by
  induction comps generalizing t with
  | nil => cases hc
  | cons d cs ih =>
    show ∃ l, alookup
      (buildLookupTables (buildStep t d).1 cs).1.functions c.name = some l ∧
      c ∈ l
    rcases List.mem_cons.mp hc with rfl | hc'
    · apply functions_preserved
      rw [buildStep_functions, if_pos hf, alookup_appendAt, if_pos rfl]
      exact ⟨_, rfl, List.mem_append_right _ (List.mem_singleton.mpr rfl)⟩
    · exact ih _ hc'

def routedMethodBody : List PyStmt :=
  [.classDef ("C".toList) [] []
    [.funcDef ("m".toList) ["self".toList] [routeDecoratorSlash] [] 2
      (some 3)] 1 (some 3)]

def routedMethodFile : PyFile :=
  { relPath := "m.py".toList, fileName := "m.py".toList,
    parsed := .ok ("x".toList, routedMethodBody) }

/-- C10 counterexample: a method decorated with `@app.route('/idx')` is
still indexed twice, but both copies have kind `route`, not `function`, and
neither appears in the `functions` lookup table — so the claim's "two
function components ... both copies appear in the functions lookup sequence",
quantified over every method, fails on route-decorated methods. -/
theorem routed_method_counterexample :
    ((indexPythonFile {} routedMethodFile).components.filter
      (fun c => c.name == "m".toList)).map (fun c => c.type) =
      ["route".toList, "route".toList] ∧
    (indexPythonFile {} routedMethodFile).components.filter
      (fun c => c.name == "m".toList && c.type == "function".toList) = [] ∧
    alookup (buildLookupTables {}
      (indexPythonFile {} routedMethodFile).components).1.functions
      ("m".toList) = none := by
  refine ⟨?_, ?_, ?_⟩ <;> decide

/-- C10 (amended): for every method — a function declaration directly in the
body of a class node visited by the module walk — whose decorator names do
not contain "route" case-insensitively, the extractor appends two
`function`-kind components with the same name and line span: one with
`parent_class` set to the class name (from `_index_class`) and one with
`parent_class` empty (from the module-wide walk visiting the method node);
both copies appear in the `functions` lookup list under the method's name.
(Route-decorated methods are also emitted twice, but as `route` components.) -/
theorem method_indexed_twice (st : IndexerState) (f : PyFile) (content : Str)
    (body : List PyStmt) (hok : f.parsed = .ok (content, body))
    (cnm : Str) (bases decs : List PyExpr) (cbody : List PyStmt) (cln : Nat)
    (cel : Option Nat)
    (hcls : PyStmt.classDef cnm bases decs cbody cln cel ∈ walk body)
    (fn : Str) (fargs : List Str) (fdecs : List PyExpr) (fbody : List PyStmt)
    (fln : Nat) (fel : Option Nat)
    (hm : PyStmt.funcDef fn fargs fdecs fbody fln fel ∈ cbody)
    (hnr : (fdecs.map getDecoratorName).any
      (fun d => strIn ("route".toList) (lowerStr d)) = false) :
    (indexFunctionComp f.relPath (collectImports body) cnm fn fargs fdecs
        fbody fln fel).type = "function".toList ∧
    (indexFunctionComp f.relPath (collectImports body) [] fn fargs fdecs
        fbody fln fel).type = "function".toList ∧
    (indexFunctionComp f.relPath (collectImports body) cnm fn fargs fdecs
        fbody fln fel).parent_class = cnm ∧
    (indexFunctionComp f.relPath (collectImports body) [] fn fargs fdecs
        fbody fln fel).parent_class = [] ∧
    (indexFunctionComp f.relPath (collectImports body) cnm fn fargs fdecs
        fbody fln fel).name = fn ∧
    (indexFunctionComp f.relPath (collectImports body) [] fn fargs fdecs
        fbody fln fel).name = fn ∧
    (indexFunctionComp f.relPath (collectImports body) cnm fn fargs fdecs
        fbody fln fel).line_start =
      (indexFunctionComp f.relPath (collectImports body) [] fn fargs fdecs
        fbody fln fel).line_start ∧
    (indexFunctionComp f.relPath (collectImports body) cnm fn fargs fdecs
        fbody fln fel).line_end =
      (indexFunctionComp f.relPath (collectImports body) [] fn fargs fdecs
        fbody fln fel).line_end ∧
    indexFunctionComp f.relPath (collectImports body) cnm fn fargs fdecs
      fbody fln fel ∈ (indexPythonFile st f).components ∧
    indexFunctionComp f.relPath (collectImports body) [] fn fargs fdecs
      fbody fln fel ∈ (indexPythonFile st f).components ∧
    ∃ l, alookup (buildLookupTables {}
        (indexPythonFile st f).components).1.functions fn = some l ∧
      indexFunctionComp f.relPath (collectImports body) cnm fn fargs fdecs
        fbody fln fel ∈ l ∧
      indexFunctionComp f.relPath (collectImports body) [] fn fargs fdecs
        fbody fln fel ∈ l := by
  have htype : ∀ pc : Str, (indexFunctionComp f.relPath (collectImports body)
      pc fn fargs fdecs fbody fln fel).type = "function".toList := by
    intro pc
    have h : (indexFunctionComp f.relPath (collectImports body) pc fn fargs
        fdecs fbody fln fel).type =
        (if (fdecs.map getDecoratorName).any
            (fun d => strIn ("route".toList) (lowerStr d)) = true
          then "route".toList else "function".toList) := rfl
    rw [h, hnr]
    rfl
  have hmem1 : indexFunctionComp f.relPath (collectImports body) cnm fn fargs
      fdecs fbody fln fel ∈ (indexPythonFile st f).components := by
    apply mem_indexPythonFile_components hok hcls
    apply List.mem_cons_of_mem
    exact List.mem_filterMap.mpr
      ⟨PyStmt.funcDef fn fargs fdecs fbody fln fel, hm, rfl⟩
  have hmem2 : indexFunctionComp f.relPath (collectImports body) [] fn fargs
      fdecs fbody fln fel ∈ (indexPythonFile st f).components := by
    have hwalk : PyStmt.funcDef fn fargs fdecs fbody fln fel ∈ walk body :=
      mem_walk_children hcls hm
    apply mem_indexPythonFile_components hok hwalk
    exact List.mem_singleton.mpr rfl
  have hl1 := functions_lookup_mem _ {} _ hmem1 (htype cnm)
  have hl2 := functions_lookup_mem _ {} _ hmem2 (htype [])
  rcases hl1 with ⟨l1, hl1e, hl1m⟩
  rcases hl2 with ⟨l2, hl2e, hl2m⟩
  have hname : (indexFunctionComp f.relPath (collectImports body) cnm fn fargs
      fdecs fbody fln fel).name = fn := rfl
  refine ⟨htype cnm, htype [], rfl, rfl, rfl, rfl, rfl, rfl, hmem1, hmem2,
    l1, ?_, hl1m, ?_⟩
  · rw [← hname]
    exact hl1e
  · have : l1 = l2 := by
      have e1 := hl1e
      have e2 := hl2e
      rw [show (indexFunctionComp f.relPath (collectImports body) cnm fn fargs
        fdecs fbody fln fel).name = fn from rfl] at e1
      rw [show (indexFunctionComp f.relPath (collectImports body) [] fn fargs
        fdecs fbody fln fel).name = fn from rfl] at e2
      rw [e1] at e2
      exact Option.some.inj e2
    rw [this]
    exact hl2m

def plainMethodBody : List PyStmt :=
  [.classDef ("D".toList) [] []
    [.funcDef ("g".toList) ["self".toList] [] [] 2 (some 3)] 1 (some 3)]

def plainMethodFile : PyFile :=
  { relPath := "p.py".toList, fileName := "p.py".toList,
    parsed := .ok ("x".toList, plainMethodBody) }

theorem method_indexed_twice_witness :
    indexFunctionComp ("p.py".toList) (collectImports plainMethodBody)
      ("D".toList) ("g".toList) ["self".toList] [] [] 2 (some 3) ∈
      (indexPythonFile {} plainMethodFile).components ∧
    indexFunctionComp ("p.py".toList) (collectImports plainMethodBody) []
      ("g".toList) ["self".toList] [] [] 2 (some 3) ∈
      (indexPythonFile {} plainMethodFile).components ∧
    ∃ l, alookup (buildLookupTables {}
        (indexPythonFile {} plainMethodFile).components).1.functions
        ("g".toList) = some l ∧
      indexFunctionComp ("p.py".toList) (collectImports plainMethodBody)
        ("D".toList) ("g".toList) ["self".toList] [] [] 2 (some 3) ∈ l ∧
      indexFunctionComp ("p.py".toList) (collectImports plainMethodBody) []
        ("g".toList) ["self".toList] [] [] 2 (some 3) ∈ l := by
  have h := method_indexed_twice {} plainMethodFile ("x".toList)
    plainMethodBody rfl ("D".toList) [] []
    [.funcDef ("g".toList) ["self".toList] [] [] 2 (some 3)] 1 (some 3)
    (List.mem_cons_self _ _) ("g".toList) ["self".toList] [] [] 2 (some 3)
    (List.mem_cons_self _ _) rfl
  exact ⟨h.2.2.2.2.2.2.2.2.1, h.2.2.2.2.2.2.2.2.2.1, h.2.2.2.2.2.2.2.2.2.2⟩

/-! ## Snapshot store (`save_index` / `load_index`)

`save_index` serialises `asdict(comp)` for every component through JSON;
`load_index` reads the document back, rebuilds each `CodeComponent(**comp)`,
and re-runs `_build_lookup_tables` on a fresh indexer.  JSON values are
modelled by the `Json` type below; the component fields only ever hold
strings, integers, lists of strings, and the open string-keyed `metadata`
object, all of which JSON round-trips verbatim. -/

inductive Json where
  | str (s : Str)
  | num (n : Int)
  | arr (elts : List Json)
  | obj (fields : List (Str × Json))

def decodeStrList : List Json → Option (List Str)
  | [] => some []
  | .str v :: rest => (decodeStrList rest).map (v :: ·)
  | _ => none

def encodeMetaVal : MetaVal → Json
  | .s v => .str v
  | .n v => .num v
  | .ls v => .arr (v.map Json.str)

def decodeMetaVal : Json → Option MetaVal
  | .str v => some (.s v)
  | .num v => some (.n v)
  | .arr elts => (decodeStrList elts).map MetaVal.ls
  | .obj _ => none

def encodeMeta (m : List (Str × MetaVal)) : Json :=
  .obj (m.map (fun p => (p.1, encodeMetaVal p.2)))

def decodeMeta : List (Str × Json) → Option (List (Str × MetaVal))
  | [] => some []
  | (k, j) :: rest =>
    match decodeMetaVal j with
    | none => none
    | some v => (decodeMeta rest).map ((k, v) :: ·)

/-- `asdict(comp)`, in dataclass field order. -/
def encodeComp (c : CodeComponent) : Json :=
  .obj [("type".toList, .str c.type),
        ("name".toList, .str c.name),
        ("filepath".toList, .str c.filepath),
        ("line_start".toList, .num c.line_start),
        ("line_end".toList, .num c.line_end),
        ("docstring".toList, .str c.docstring),
        ("signature".toList, .str c.signature),
        ("decorators".toList, .arr (c.decorators.map Json.str)),
        ("parent_class".toList, .str c.parent_class),
        ("imports".toList, .arr (c.imports.map Json.str)),
        ("metadata".toList, encodeMeta c.metadata)]

def jsonStr? : Option Json → Option Str
  | some (.str s) => some s
  | _ => none

def jsonNat? : Option Json → Option Nat
  | some (.num (Int.ofNat n)) => some n
  | _ => none

/-- `CodeComponent(**comp)` over a decoded JSON object: every field is read
back by key with its dataclass type. -/
def decodeComp : Json → Option CodeComponent
  | .obj fields => do
    let ty ← jsonStr? (alookup fields ("type".toList))
    let nm ← jsonStr? (alookup fields ("name".toList))
    let fp ← jsonStr? (alookup fields ("filepath".toList))
    let ls ← jsonNat? (alookup fields ("line_start".toList))
    let le ← jsonNat? (alookup fields ("line_end".toList))
    let ds ← jsonStr? (alookup fields ("docstring".toList))
    let sg ← jsonStr? (alookup fields ("signature".toList))
    let decorators ← match alookup fields ("decorators".toList) with
      | some (.arr xs) => decodeStrList xs
      | _ => none
    let pc ← jsonStr? (alookup fields ("parent_class".toList))
    let imports ← match alookup fields ("imports".toList) with
      | some (.arr xs) => decodeStrList xs
      | _ => none
    let metadata ← match alookup fields ("metadata".toList) with
      | some (.obj l) => decodeMeta l
      | _ => none
    pure { type := ty, name := nm, filepath := fp, line_start := ls,
           line_end := le, docstring := ds, signature := sg,
           decorators := decorators, parent_class := pc,
           imports := imports, metadata := metadata }
  | _ => none

theorem decodeStrList_encode (l : List Str) :
    decodeStrList (l.map Json.str) = some l := by
  induction l with
  | nil => rfl
  | cons x rest ih => simp [decodeStrList, ih]

theorem decodeMetaVal_encode (v : MetaVal) :
    decodeMetaVal (encodeMetaVal v) = some v := by
  cases v <;> simp [encodeMetaVal, decodeMetaVal, decodeStrList_encode]

theorem decodeMeta_encode (m : List (Str × MetaVal)) :
    decodeMeta (m.map (fun p => (p.1, encodeMetaVal p.2))) = some m := by
  induction m with
  | nil => rfl
  | cons p rest ih => simp [decodeMeta, decodeMetaVal_encode, ih]

/-- Serialising one component and rebuilding it is the identity, field for
field, including the empty-vs-absent distinctions inside `metadata`. -/
theorem decodeComp_encodeComp (c : CodeComponent) :
    decodeComp (encodeComp c) = some c := by
  have h1 := decodeStrList_encode c.decorators
  have h2 := decodeStrList_encode c.imports
  have h3 := decodeMeta_encode c.metadata
  simp [decodeComp, encodeComp, encodeMeta, alookup, jsonStr?, jsonNat?,
    h1, h2, h3]

/-- The in-memory index `save_index` reads from: the component sequence, the
`files_indexed` set, and the five lookup dictionaries. -/
structure Indexer where
  components : List CodeComponent := []
  files_indexed : List Str := []
  tables : Tables := {}
deriving DecidableEq, Repr

/-- The `stats` object `save_index` writes. -/
structure Stats where
  total_components : Nat
  files_indexed : Nat
  routes : Nat
  models : Nat
  tables : Nat
  functions : Nat
  classes : Nat
deriving DecidableEq, Repr

def computeStats (ix : Indexer) : Stats :=
  { total_components := ix.components.length,
    files_indexed := ix.files_indexed.length,
    routes := ix.tables.routes.length,
    models := ix.tables.models.length,
    tables := ix.tables.tables.length,
    functions := (ix.tables.functions.map (fun p => p.2.length)).sum,
    classes := ix.tables.classes.length }

/-- The persisted document: timestamp, root, serialised component sequence,
stats.  The lookup tables are NOT part of it. -/
structure Snapshot where
  indexed_at : Str
  project_root : Str
  components : List Json
  stats : Stats

/-- `save_index` (the written document; `datetime.now().isoformat()` is the
`now` argument). -/
def saveIndex (now root : Str) (ix : Indexer) : Snapshot :=
  { indexed_at := now, project_root := root,
    components := ix.components.map encodeComp,
    stats := computeStats ix }

/-- `load_index`: deserialise every component record, then re-run the
lookup-table build pass on a fresh indexer (empty dictionaries, empty
`files_indexed`). -/
def loadIndex (s : Snapshot) : Option Indexer :=
  match s.components.mapM decodeComp with
  | none => none
  | some comps =>
    some { components := (buildLookupTables {} comps).2,
           files_indexed := [],
           tables := (buildLookupTables {} comps).1 }

theorem mapM_decode_encode (l : List CodeComponent) :
    (l.map encodeComp).mapM decodeComp = some l := by
  induction l with
  | nil => rfl
  | cons c rest ih =>
    rw [List.map_cons, List.mapM_cons, decodeComp_encodeComp, ih]
    rfl

/-- C3: loading the snapshot written by `save_index` reconstructs the
component sequence equal to the original, field for field and in order
(including empty-vs-absent metadata distinctions), with the snapshot's stats
computed from the original index; the lookup tables are not read from the
snapshot (it has no such field) but rebuilt from the loaded sequence by the
same build pass.  The hypothesis says the saved index was itself produced by
a build pass — its components are fixed under the pass's in-place
reclassification — which holds for every index the program saves, since
`save_index` always runs after `index_codebase` or `load_index`. -/
theorem snapshot_round_trip (now root : Str) (ix : Indexer)
    (hfix : ix.components.map reclassify = ix.components) :
    ∃ ix', loadIndex (saveIndex now root ix) = some ix' ∧
      ix'.components = ix.components ∧
      ix'.tables = (buildLookupTables {} ix.components).1 ∧
      ix'.files_indexed = [] ∧
      (saveIndex now root ix).stats = computeStats ix := by
  refine ⟨{ components := (buildLookupTables {} ix.components).2,
            files_indexed := [],
            tables := (buildLookupTables {} ix.components).1 },
    ?_, ?_, rfl, rfl, rfl⟩
  · unfold loadIndex saveIndex
    rw [show (Snapshot.mk now root (ix.components.map encodeComp)
        (computeStats ix)).components = ix.components.map encodeComp from rfl,
      mapM_decode_encode]
  · show (buildLookupTables {} ix.components).2 = ix.components
    rw [buildLookupTables_snd, hfix]

def snapWitnessIndexer : Indexer :=
  { components := [plainFunctionComp, modelClassComp],
    files_indexed := ["a.py".toList, "m.py".toList],
    tables := (buildLookupTables {}
      [plainFunctionComp, modelClassComp]).1 }

theorem snapshot_round_trip_witness :
    ∃ ix', loadIndex (saveIndex ("2024".toList) ("/r".toList)
        { snapWitnessIndexer with components :=
          (buildLookupTables {} snapWitnessIndexer.components).2 }) =
        some ix' ∧
      ix'.components = (buildLookupTables {}
        snapWitnessIndexer.components).2 ∧
      ix'.tables = (buildLookupTables {} (buildLookupTables {}
        snapWitnessIndexer.components).2).1 ∧
      ix'.files_indexed = [] ∧
      (saveIndex ("2024".toList) ("/r".toList)
        { snapWitnessIndexer with components :=
          (buildLookupTables {} snapWitnessIndexer.components).2 }).stats =
        computeStats { snapWitnessIndexer with components :=
          (buildLookupTables {} snapWitnessIndexer.components).2 } :=
  snapshot_round_trip ("2024".toList) ("/r".toList) _ (by decide)

/-! ## SQL extraction (`_index_sql_file`)

The regex `CREATE\s+TABLE\s+(?:IF\s+NOT\s+EXISTS\s+)?([a-z_][a-z0-9_]*)`
with `re.IGNORECASE` is embedded directly: case-insensitive literals,
greedy `\s+` (safe, since the token after each `\s+` is never whitespace),
an optional group dropped by backtracking when the rest of the pattern fails
after it, and a greedy identifier capture. -/

/-- Python regex `\s` over the ASCII whitespace characters. -/
def pyIsSpace (c : Char) : Bool :=
  c = ' ' || c = '\t' || c = '\n' || c = '\r' ||
    c = Char.ofNat 11 || c = Char.ofNat 12

/-- Case-insensitive literal match; returns the remainder on success. -/
def matchLitCI : Str → Str → Option Str
  | [], s => some s
  | _ :: _, [] => none
  | c :: cs, d :: ds =>
    if c.toLower = d.toLower then matchLitCI cs ds else none

/-- `\s+`, greedy. -/
def matchSpace1 : Str → Option Str
  | [] => none
  | c :: rest =>
    if pyIsSpace c then some (rest.dropWhile pyIsSpace) else none

def isIdentStart (c : Char) : Bool := c.isAlpha || c = '_'

def isIdentChar (c : Char) : Bool := c.isAlphanum || c = '_'

/-- `([a-z_][a-z0-9_]*)` under `IGNORECASE`: the captured identifier and the
remainder. -/
def matchIdent : Str → Option (Str × Str)
  | [] => none
  | c :: rest =>
    if isIdentStart c then
      some (c :: rest.takeWhile isIdentChar, rest.dropWhile isIdentChar)
    else none

/-- The whole pattern, anchored at the head of `s`: captured table name and
remainder after the match. -/
def matchCreateTable (s : Str) : Option (Str × Str) :=
  match matchLitCI ("CREATE".toList) s with
  | none => none
  | some r1 =>
    match matchSpace1 r1 with
    | none => none
    | some r2 =>
      match matchLitCI ("TABLE".toList) r2 with
      | none => none
      | some r3 =>
        match matchSpace1 r3 with
        | none => none
        | some r4 =>
          match (match matchLitCI ("IF".toList) r4 with
                 | none => none
                 | some a =>
                   match matchSpace1 a with
                   | none => none
                   | some b =>
                     match matchLitCI ("NOT".toList) b with
                     | none => none
                     | some c =>
                       match matchSpace1 c with
                       | none => none
                       | some d =>
                         match matchLitCI ("EXISTS".toList) d with
                         | none => none
                         | some e => matchSpace1 e) with
          | some r5 =>
            (match matchIdent r5 with
             | some p => some p
             | none => matchIdent r4)
          | none => matchIdent r4

/-- `re.finditer`: scan left to right, resuming after each (never
zero-width) match; records `(start, name, end)` positions. -/
def scanSql : Nat → Str → Nat → List (Nat × Str × Nat)
  | 0, _, _ => []
  | _, [], _ => []
  | fuel + 1, s, pos =>
    match matchCreateTable s with
    | some (nm, rest) =>
      (pos, nm, pos + (s.length - rest.length)) ::
        scanSql fuel rest (pos + (s.length - rest.length))
    | none =>
      match s with
      | [] => []
      | _ :: t => scanSql fuel t (pos + 1)

/-- `content[:pos].count('\n') + 1`. -/
def lineOfPos (content : Str) (pos : Nat) : Nat :=
  (content.take pos).count '\n' + 1

/-- `content.find(';', start)` with the `-1 → len(content)` fallback. -/
def findSemiFrom (content : Str) (start : Nat) : Nat :=
  match (content.drop start).findIdx? (fun c => c = ';') with
  | some i => start + i
  | none => content.length

/-- One SQL file presented to `_index_sql_file`. -/
structure SqlFile where
  relPath : Str
  fileName : Str
  readResult : Except Str Str

/-- The file component `_index_sql_file` appends (500-character preview as
the docstring, full text under `metadata['content']`). -/
def sqlFileComponent (f : SqlFile) (content : Str) : CodeComponent :=
  { type := "file".toList, name := f.fileName, filepath := f.relPath,
    line_start := 1, line_end := countLines content,
    docstring := content.take 500,
    metadata := [("language".toList, .s ("sql".toList)),
                 ("size".toList, .n (content.length : Int)),
                 ("content".toList, .s content)] }

/-- The table component emitted for one regex match `(start, name, end)`:
`line_start` is the line of the match start, `line_end` the line of the next
`';'` (or of the end of file). -/
def sqlTableComponent (relPath : Str) (content : Str)
    (m : Nat × Str × Nat) : CodeComponent :=
  { type := "table".toList, name := m.2.1, filepath := relPath,
    line_start := lineOfPos content m.1,
    line_end := lineOfPos content (findSemiFrom content m.1),
    metadata := [("language".toList, .s ("sql".toList))] }

/-- `_index_sql_file`: same error handling as the Python extractor; one file
component, then one table component per match. -/
def indexSqlFile (st : IndexerState) (f : SqlFile) : IndexerState :=
  match f.readResult with
  | .error e => { st with errors := st.errors ++ [(f.relPath, e)] }
  | .ok content =>
    { st with
      files_indexed := insertNew st.files_indexed f.relPath,
      components := st.components ++ sqlFileComponent f content ::
        (scanSql (content.length + 1) content 0).map
          (sqlTableComponent f.relPath content) }

def sqlExampleText : Str :=
  ("CREATE TABLE IF NOT EXISTS voters (id INT);").toList

def sqlExampleFile : SqlFile :=
  { relPath := "schema.sql".toList, fileName := "schema.sql".toList,
    readResult := .ok sqlExampleText }

/-- C8: the file whose text is exactly
`CREATE TABLE IF NOT EXISTS voters (id INT);` yields exactly one table-kind
component, named `voters`, spanning line 1 (match start) to line 1 (the next
`';'`); in general the table components are exactly one per case-insensitive
regex match, spanning match-start line to terminator line. -/
theorem sql_create_table_scenario :
    (indexSqlFile {} sqlExampleFile).components.filter
      (fun c => c.type == "table".toList) =
      [{ type := "table".toList, name := "voters".toList,
         filepath := "schema.sql".toList, line_start := 1, line_end := 1,
         metadata := [("language".toList, .s ("sql".toList))] }] ∧
    (indexSqlFile {} sqlExampleFile).components.length = 2 ∧
    (∀ st : IndexerState, ∀ f : SqlFile, ∀ content : Str,
      f.readResult = .ok content →
      (indexSqlFile st f).components = st.components ++
        sqlFileComponent f content ::
        (scanSql (content.length + 1) content 0).map
          (sqlTableComponent f.relPath content)) := by
  refine ⟨by decide, by decide, ?_⟩
  intro st f content hok
  unfold indexSqlFile
  rw [hok]

theorem sql_create_table_scenario_witness :
    (indexSqlFile {} sqlExampleFile).components = [] ++
      sqlFileComponent sqlExampleFile sqlExampleText ::
      (scanSql (sqlExampleText.length + 1) sqlExampleText 0).map
        (sqlTableComponent ("schema.sql".toList) sqlExampleText) :=
  sql_create_table_scenario.2.2 {} sqlExampleFile sqlExampleText rfl
